import Mathlib

/-!
Verification development for the formation-string decoder of
`src/app/services/formation.service.ts` (train-formation-view).

JS strings are modelled as `List Char`; JS regular expressions are
translated into explicit scanning functions (leftmost match, with the
backtracking behaviour of the concrete pattern spelled out at each
definition).  The stateful finalization pass (which mutates the wagon
objects shared between the section arrays and the flattened array) is
modelled by a functional pass over the flattened wagon list followed by
regrouping the result into the original section shapes.
-/

set_option maxHeartbeats 1000000

namespace Formation

abbrev Str := List Char

/-- String literal helper: a JS string as a list of characters. -/
def str (s : String) : Str := s.toList

/-- JS `s.startsWith(p)`. -/
def strStarts (s p : Str) : Bool := p.isPrefixOf s

/-- JS `s.endsWith(p)`. -/
def strEnds (s p : Str) : Bool := p.isSuffixOf s

/-- JS `s.includes(p)`: `p` occurs as a prefix of some suffix of `s`. -/
def strHas : Str → Str → Bool
  | [], p => p.isPrefixOf ([] : Str)
  | c :: rest, p => p.isPrefixOf (c :: rest) || strHas rest p

/-- The WhiteSpace and LineTerminator characters stripped by JS
`trim`. -/
def isWS (c : Char) : Bool :=
  c = ' ' ∨ c = '\t' ∨ c = '\n' ∨ c = '\r' ∨ c = '\x0b' ∨ c = '\x0c' ∨
    c = '\u00a0' ∨ c = '\u1680' ∨ ('\u2000' ≤ c ∧ c ≤ '\u200a') ∨ c = '\u2028' ∨
    c = '\u2029' ∨ c = '\u202f' ∨ c = '\u205f' ∨ c = '\u3000' ∨ c = '\ufeff'

/-- JS `s.trim()`. -/
def trim (s : Str) : Str := ((s.dropWhile isWS).reverse.dropWhile isWS).reverse

/-- A string that is empty or whitespace-only (falsy after `trim`). -/
def blank (s : Str) : Bool := trim s = ([] : Str)

/-- JS `s.split(sep)` for a set of single-character separators. -/
def splitOnPred (p : Char → Bool) : Str → List Str
  | [] => [[]]
  | c :: rest =>
    if p c then [] :: splitOnPred p rest
    else
      match splitOnPred p rest with
      | h :: t => (c :: h) :: t
      | [] => [[c]]

/-- JS `s.split(';')` and `s.split(',')` use this with one separator. -/
def splitOnChar (sep : Char) (s : Str) : List Str := splitOnPred (fun c => c = sep) s

/-- Token types of the formation-string tokenizer (enum `TokenType`). -/
inductive TokenType where
  | SECTOR
  | FICTITIOUS_WAGON
  | BRACKET_OPEN
  | BRACKET_CLOSE
  | PARENTHESIS_OPEN
  | PARENTHESIS_CLOSE
  | COMMA
  | BACKSLASH
  | VEHICLE
  | UNKNOWN
deriving DecidableEq, Repr

/-- A token of the formation-string tokenizer (interface `FormationToken`). -/
structure FormationToken where
  type : TokenType
  value : Str
  position : Nat
deriving DecidableEq, Repr

/-- Wagon status values (enum `WagonStatus`). -/
inductive WagonStatus where
  | closed
  | groupBoarding
  | reservedForTransit
  | unserviced
deriving DecidableEq, Repr

/-- A wagon attribute (`WagonAttribute`: code, label, icon). -/
structure WagonAttribute where
  code : Str
  label : Str
  icon : Str
deriving DecidableEq, Repr

/-- A decoded wagon (`TrainWagon`). -/
structure TrainWagon where
  position : Nat
  number : Str
  type : Str
  typeLabel : Str
  classes : List Char
  attributes : List WagonAttribute
  noAccessToPrevious : Bool
  noAccessToNext : Bool
  noAccessMessage : Option Str
  sector : Str
  statusCodes : List WagonStatus
deriving DecidableEq, Repr

/-- A section of the train (`TrainSection`). -/
structure TrainSection where
  sector : Str
  wagons : List TrainWagon
deriving DecidableEq, Repr

/-- Default wagon used to state concrete witness facts. -/
def defaultWagon : TrainWagon :=
  { position := 0, number := [], type := [], typeLabel := [], classes := [],
    attributes := [], noAccessToPrevious := false, noAccessToNext := false,
    noAccessMessage := none, sector := [], statusCodes := [] }

/-- `FormationService.WAGON_TYPES`. -/
def WAGON_TYPES : List Str :=
  [str "1", str "2", str "12", str "CC", str "FA", str "WL", str "WR",
   str "W1", str "W2", str "LK", str "D", str "K", str "X"]

/-- `FormationService.STATUS_CHARS`. -/
def STATUS_CHARS : List Char := ['-', '>', '=', '%']

/-- The regex `F[AZ]` (`FAMILY_WAGON_REGEX`), unanchored test. -/
def familyTest (s : Str) : Bool := strHas s (str "FA") || strHas s (str "FZ")

/-- The regex `W[12R]` (`RESTAURANT_WAGON_REGEX`), unanchored test. -/
def restaurantTest (s : Str) : Bool :=
  strHas s (str "W1") || strHas s (str "W2") || strHas s (str "WR")

/-- `WAGON_TYPE_MAPPING`, in object-literal insertion order. -/
def WAGON_TYPE_MAPPING : List (Str × Str) :=
  [(str "LK", str "locomotive"),
   (str "1", str "first-class"),
   (str "2", str "second-class"),
   (str "12", str "first-and-second-class"),
   (str "CC", str "couchette"),
   (str "FA", str "second-class"),
   (str "FZ", str "second-class"),
   (str "WL", str "sleeper"),
   (str "WR", str "restaurant"),
   (str "W1", str "restaurant-first"),
   (str "W2", str "restaurant-second"),
   (str "D", str "baggage"),
   (str "K", str "classless"),
   (str "X", str "parked")]

/-- `WAGON_TYPE_MAPPING` entries after the stable sort by descending code
length performed in `determineWagonType`.  `Object.entries` enumerates
the integer-like keys `1`, `2`, `12` first (in ascending numeric order)
and then the remaining keys in insertion order, so the stable sort puts
`12` before `LK` among the two-letter codes. -/
def SORTED_TYPE_ENTRIES : List (Str × Str) :=
  [(str "12", str "first-and-second-class"),
   (str "LK", str "locomotive"),
   (str "CC", str "couchette"),
   (str "FA", str "second-class"),
   (str "FZ", str "second-class"),
   (str "WL", str "sleeper"),
   (str "WR", str "restaurant"),
   (str "W1", str "restaurant-first"),
   (str "W2", str "restaurant-second"),
   (str "1", str "first-class"),
   (str "2", str "second-class"),
   (str "D", str "baggage"),
   (str "K", str "classless"),
   (str "X", str "parked")]

/-- `TYPE_LABELS`. -/
def TYPE_LABELS : List (Str × Str) :=
  [(str "locomotive", str "Locomotive"),
   (str "first-class", str "1st Class Coach"),
   (str "second-class", str "2nd Class Coach"),
   (str "first-and-second-class", str "1st & 2nd Class Coach"),
   (str "couchette", str "Couchette Compartments"),
   (str "sleeper", str "Sleeping Compartments"),
   (str "restaurant", str "2nd Class Coach"),
   (str "restaurant-first", str "1st Class Coach"),
   (str "restaurant-second", str "2nd Class Coach"),
   (str "baggage", str "Luggage Coach"),
   (str "classless", str "Classless Coach"),
   (str "parked", str "Parked Vehicle"),
   (str "wagon", str "Coach")]

/-- `OFFER_MAPPING`: code, label, icon. -/
def OFFER_MAPPING : List (Str × Str × Str) :=
  [(str "BHP", str "Wheelchair Spaces", str "wheelchair"),
   (str "BZ", str "Business Zone", str "business"),
   (str "FZ", str "Family Zone", str "family"),
   (str "KW", str "Stroller Platform", str "stroller"),
   (str "LA", str "Luggage", str "luggage"),
   (str "NF", str "Low Floor Access", str "accessible"),
   (str "VH", str "Bike Hooks", str "bicycle"),
   (str "VR", str "Bike Hooks Reservation Required", str "bicycle-reserved"),
   (str "WL", str "Sleeping Compartments", str "sleep"),
   (str "CC", str "Couchette Compartments", str "couchette")]

/-- `isPotentialWagonToken`: starts with a status character, or contains
one of the wagon type codes. -/
def isPotentialWagonToken (token : Str) : Bool :=
  STATUS_CHARS.any (fun c => strStarts token [c]) ||
    WAGON_TYPES.any (fun t => strHas token t)

/-- `parseWagonStatus`: the closed condition (starts with `-`, or contains
`(-` or `@-`). -/
def closedCond (token : Str) : Bool :=
  strStarts token ['-'] || strHas token (str "(-") || strHas token (str "@-")

/-- `parseWagonStatus`. -/
def parseWagonStatus (token : Str) : List WagonStatus :=
  if closedCond token then [WagonStatus.closed]
  else
    (if strStarts token ['>'] || token.contains '>' then [WagonStatus.groupBoarding] else []) ++
    (if strStarts token ['='] || token.contains '=' then [WagonStatus.reservedForTransit] else []) ++
    (if strStarts token ['%'] || token.contains '%' then [WagonStatus.unserviced] else [])

/-- Leading status-character stripping of `parseVehicleToken`: a token
starting with `-` loses exactly one character; a token starting with any
other status character loses its whole leading run of status characters. -/
def stripLeadingStatus (token : Str) : Str :=
  if strStarts token ['-'] then token.drop 1
  else if STATUS_CHARS.any (fun c => strStarts token [c]) then
    token.dropWhile (fun c => STATUS_CHARS.contains c)
  else token

/-- Bracket/parenthesis stripping of `parseVehicleToken` and
`determineWagonClasses`: at most one leading `[`, one trailing `]`, one
leading `(`, one trailing `)`, in that order. -/
def stripBracketsParens (s : Str) : Str :=
  let s := if strStarts s ['['] then s.drop 1 else s
  let s := if strEnds s [']'] then s.dropLast else s
  let s := if strStarts s ['('] then s.drop 1 else s
  if strEnds s [')'] then s.dropLast else s

/-- Anchored type test of `determineWagonType`: regex `^CODE(?:[:#,]|$)`. -/
def anchoredTypeMatch (code token : Str) : Bool :=
  strStarts token code &&
    (match token.drop code.length with
     | [] => true
     | c :: _ => c = ':' ∨ c = '#' ∨ c = ',')

/-- `determineWagonType`: longest-code-first anchored match, then
longest-code-first substring containment, default `wagon`. -/
def determineWagonType (token : Str) : Str :=
  match SORTED_TYPE_ENTRIES.find? (fun e => anchoredTypeMatch e.1 token) with
  | some e => e.2
  | none =>
    match SORTED_TYPE_ENTRIES.find? (fun e => strHas token e.1) with
    | some e => e.2
    | none => str "wagon"

/-- `getTypeLabel`. -/
def getTypeLabel (type : Str) : Str :=
  match TYPE_LABELS.find? (fun e => e.1 = type) with
  | some e => e.2
  | none => str "Coach"

/-- Delimiter class `[:#,@)]` of the class-marker regexes in
`determineWagonClasses`. -/
def classDelim (c : Char) : Bool := c = ':' ∨ c = '#' ∨ c = ',' ∨ c = '@' ∨ c = ')'

/-- End-of-pattern alternative `(?:[:#,@)]|$)`. -/
def delimOrEnd : Str → Bool
  | [] => true
  | c :: _ => classDelim c

/-- Anchored class pattern `^PRE(?:[:#,@)]|$)`. -/
def startsClassPat (pre s : Str) : Bool := strStarts s pre && delimOrEnd (s.drop pre.length)

/-- Unanchored class pattern `[LEAD]D(?:[:#,@)]|$)` searched anywhere
(for the `[,@]1`-style and `\(1`-style rules). -/
def infixClassPat (lead : List Char) (d : Char) : Str → Bool
  | [] => false
  | c :: rest =>
    (lead.contains c &&
      (match rest with
       | d' :: r2 => d' = d && delimOrEnd r2
       | [] => false)) || infixClassPat lead d rest

/-- The separator alternation `(?::|\):|,:|@:)` of the `CLASS:ORDINAL`
pattern in `determineWagonClasses`; the alternatives start with distinct
characters, so first-match is exact. -/
def classNumSep : Str → Option Str
  | ':' :: r => some r
  | ')' :: ':' :: r => some r
  | ',' :: ':' :: r => some r
  | '@' :: ':' :: r => some r
  | _ => none

/-- The regex `^([12])(?::|\):|,:|@:)(\d+)` of `determineWagonClasses`,
returning the class capture when it matches. -/
def classNumMatch : Str → Option Char
  | c :: rest =>
    if c = '1' ∨ c = '2' then
      match classNumSep rest with
      | some r =>
        match r with
        | d :: _ => if d.isDigit then some c else none
        | [] => none
      | none => none
    else none
  | [] => none

/-- `determineWagonClasses`. -/
def determineWagonClasses (token : Str) : List Char :=
  if familyTest token then ['2']
  else
    let cleanToken := token.dropWhile (fun c => c = '-' ∨ c = '=' ∨ c = '>' ∨ c = '%')
    let cleanToken := stripBracketsParens cleanToken
    match classNumMatch cleanToken with
    | some c => [c]
    | none =>
      if strHas cleanToken (str "WR") then ['2']
      else if strHas cleanToken (str "W1") then ['1']
      else if strHas cleanToken (str "W2") then ['2']
      else
        (if startsClassPat (str "1") cleanToken || startsClassPat (str "12") cleanToken ||
            infixClassPat [',', '@'] '1' cleanToken || infixClassPat ['('] '1' cleanToken
         then ['1'] else []) ++
        (if startsClassPat (str "2") cleanToken || startsClassPat (str "12") cleanToken ||
            infixClassPat [',', '@'] '2' cleanToken || infixClassPat ['('] '2' cleanToken
         then ['2'] else [])

/-- Terminator class `(?:[:#]|$|[)])` of the first ordinal pattern. -/
def ordAfterOk : Str → Bool
  | [] => true
  | c :: _ => c = ':' ∨ c = '#' ∨ c = ')'

/-- Greedy `(\d{1,3})` followed by `(?:[:#]|$|[)])`, with the regex
backtracking from three digits down to one. -/
def ordDigits (s : Str) : Option Str :=
  if (s.take 3).length = 3 ∧ (s.take 3).all Char.isDigit ∧ ordAfterOk (s.drop 3) then
    some (s.take 3)
  else if (s.take 2).length = 2 ∧ (s.take 2).all Char.isDigit ∧ ordAfterOk (s.drop 2) then
    some (s.take 2)
  else if (s.take 1).length = 1 ∧ (s.take 1).all Char.isDigit ∧ ordAfterOk (s.drop 1) then
    some (s.take 1)
  else none

/-- One attempt of the regex `[,:](\d{1,3})(?:[:#]|$|[)])` at a fixed
position. -/
def ordPat1At : Str → Option Str
  | c :: rest => if c = ',' ∨ c = ':' then ordDigits rest else none
  | [] => none

/-- One attempt of the regex `(\d{1,3}):(\d{1,3})` at a fixed position,
returning the second capture; `\d{1,3}` is greedy and backtracks. -/
def ordPat2At (s : Str) : Option Str :=
  let second : Str → Option Str := fun r =>
    match (r.takeWhile Char.isDigit).take 3 with
    | [] => none
    | ds => some ds
  if (s.take 3).length = 3 ∧ (s.take 3).all Char.isDigit ∧ (s.drop 3).take 1 = [':'] then
    second (s.drop 4)
  else if (s.take 2).length = 2 ∧ (s.take 2).all Char.isDigit ∧ (s.drop 2).take 1 = [':'] then
    second (s.drop 3)
  else if (s.take 1).length = 1 ∧ (s.take 1).all Char.isDigit ∧ (s.drop 1).take 1 = [':'] then
    second (s.drop 2)
  else none

/-- Leftmost-position search used for the ordinal regexes. -/
def scanLeftmost (f : Str → Option Str) : Str → Option Str
  | [] => f []
  | l@(_ :: rest) =>
    match f l with
    | some r => some r
    | none => scanLeftmost f rest

/-- `extractOrdnr`: first pattern over the whole token, then the second. -/
def extractOrdnr (token : Str) : Option Str :=
  match scanLeftmost ordPat1At token with
  | some n => some n
  | none => scanLeftmost ordPat2At token

/-- Character class `[A-Z;]` of the offer-list regexes. -/
def isCodeChar (c : Char) : Bool := c.isUpper ∨ c = ';'

/-- The regex `#([A-Z;]+)` of `parseWagonAttributes`: leftmost `#`
followed by at least one `[A-Z;]` character; greedy capture. -/
def offerCapture : Str → Option Str
  | [] => none
  | '#' :: rest =>
    (match rest with
     | c :: _ =>
       if isCodeChar c then some (rest.takeWhile isCodeChar) else offerCapture rest
     | [] => none)
  | _ :: rest => offerCapture rest

/-- `getAttributeObject`. -/
def getAttributeObject (code : Str) : Option WagonAttribute :=
  match OFFER_MAPPING.find? (fun e => e.1 = code) with
  | some e => some { code := code, label := e.2.1, icon := e.2.2 }
  | none => none

/-- `parseWagonAttributes`. -/
def parseWagonAttributes (token : Str) : List WagonAttribute :=
  let attributes : List WagonAttribute :=
    (if familyTest token then
      [{ code := str "FZ", label := str "Family Zone", icon := str "family" }] else []) ++
    (if token.contains 'D' then
      [{ code := str "LA", label := str "Luggage", icon := str "luggage" }] else []) ++
    (if strHas token (str "WL") then
      [{ code := str "WL", label := str "Sleeping Compartments", icon := str "sleep" }] else []) ++
    (if strHas token (str "CC") then
      [{ code := str "CC", label := str "Couchette Compartments", icon := str "couchette" }] else []) ++
    (if restaurantTest token && !(token.contains '%') then
      [{ code := str "WR", label := str "Restaurant", icon := str "restaurant" }] else [])
  match offerCapture token with
  | none => attributes
  | some codes =>
    (splitOnChar ';' codes).foldl
      (fun acc offer =>
        match getAttributeObject offer with
        | some attr => if acc.any (fun a => a.code = offer) then acc else acc ++ [attr]
        | none => acc)
      attributes

/-- `parseVehicleToken`. -/
def parseVehicleToken (token : Str) (sector : Str) (position : Nat) : Option TrainWagon :=
  if token = [] ∨ trim token = [] then none
  else
    let statusCodes := parseWagonStatus token
    let cleanTokenWithParentheses := stripLeadingStatus token
    let cleanToken := stripBracketsParens cleanTokenWithParentheses
    let wagonType := determineWagonType cleanToken
    let typeLabel := getTypeLabel wagonType
    let tokenForNumberExtraction :=
      cleanToken.filter (fun c => ¬ (c = '(' ∨ c = ')' ∨ c = '[' ∨ c = ']'))
    let ordnr := extractOrdnr tokenForNumberExtraction
    let classes := determineWagonClasses cleanTokenWithParentheses
    let attributes := parseWagonAttributes cleanToken
    let noAccessToPrevious :=
      strStarts cleanTokenWithParentheses ['('] || strStarts token ['(']
    let noAccessToNext :=
      strEnds cleanTokenWithParentheses [')'] || strEnds token [')']
    some
      { position := position, number := ordnr.getD [], type := wagonType,
        typeLabel := typeLabel, classes := classes, attributes := attributes,
        noAccessToPrevious := noAccessToPrevious, noAccessToNext := noAccessToNext,
        noAccessMessage := none, sector := sector, statusCodes := statusCodes }

/-- `createToken`. -/
def createToken (value : Str) (position : Nat) : FormationToken :=
  if strStarts value ['@'] ∧ value.length > 1 then
    { type := TokenType.SECTOR, value := value, position := position }
  else if value = str "F" then
    { type := TokenType.FICTITIOUS_WAGON, value := value, position := position }
  else if isPotentialWagonToken value then
    { type := TokenType.VEHICLE, value := value, position := position }
  else
    { type := TokenType.UNKNOWN, value := value, position := position }

/-- Buffer flush of `tokenizeFormationString`: a non-empty accumulated
buffer becomes one classified token and advances the position counter. -/
def flushTok (buf : Str) (pos : Nat) : List FormationToken × Nat :=
  if buf = [] then ([], pos) else ([createToken buf pos], pos + 1)

/-- `tokenizeFormationString`, as a scan over the remaining characters
with the accumulated multi-character buffer and the position counter. -/
def tokenizeAux : List Char → Str → Nat → List FormationToken
  | [], buf, pos => (flushTok buf pos).1
  | '@' :: c :: rest2, buf, pos =>
    if c.isUpper then
      let fp := flushTok buf pos
      fp.1 ++ ({ type := TokenType.SECTOR, value := ['@', c], position := fp.2 } :
        FormationToken) :: tokenizeAux rest2 [] (fp.2 + 1)
    else
      let fp := flushTok buf pos
      fp.1 ++ ({ type := TokenType.SECTOR, value := ['@'], position := fp.2 } :
        FormationToken) :: tokenizeAux (c :: rest2) [] (fp.2 + 1)
  | ['@'], buf, pos =>
    let fp := flushTok buf pos
    fp.1 ++ [{ type := TokenType.SECTOR, value := ['@'], position := fp.2 }]
  | x :: rest, buf, pos =>
    if x = '[' then
      let fp := flushTok buf pos
      fp.1 ++ ({ type := TokenType.BRACKET_OPEN, value := ['['], position := fp.2 } :
        FormationToken) :: tokenizeAux rest [] (fp.2 + 1)
    else if x = ']' then
      let fp := flushTok buf pos
      fp.1 ++ ({ type := TokenType.BRACKET_CLOSE, value := [']'], position := fp.2 } :
        FormationToken) :: tokenizeAux rest [] (fp.2 + 1)
    else if x = '(' then
      let fp := flushTok buf pos
      fp.1 ++ ({ type := TokenType.PARENTHESIS_OPEN, value := ['('], position := fp.2 } :
        FormationToken) :: tokenizeAux rest [] (fp.2 + 1)
    else if x = ')' then
      let fp := flushTok buf pos
      fp.1 ++ ({ type := TokenType.PARENTHESIS_CLOSE, value := [')'], position := fp.2 } :
        FormationToken) :: tokenizeAux rest [] (fp.2 + 1)
    else if x = ',' then
      let fp := flushTok buf pos
      fp.1 ++ ({ type := TokenType.COMMA, value := [','], position := fp.2 } :
        FormationToken) :: tokenizeAux rest [] (fp.2 + 1)
    else if x = '\\' then
      let fp := flushTok buf pos
      fp.1 ++ ({ type := TokenType.BACKSLASH, value := ['\\'], position := fp.2 } :
        FormationToken) :: tokenizeAux rest [] (fp.2 + 1)
    else if x = 'F' ∧ buf = [] then
      ({ type := TokenType.FICTITIOUS_WAGON, value := ['F'], position := pos } :
        FormationToken) :: tokenizeAux rest buf (pos + 1)
    else
      tokenizeAux rest (buf ++ [x]) pos

/-- `tokenizeFormationString`. -/
def tokenizeFormationString (formationString : Str) : List FormationToken :=
  tokenizeAux formationString [] 0

/-- `extractBracketContent`, scanning with the (possibly negative) depth
and the collected content once the depth-0 opening character was seen. -/
def extractAux (o c : Char) : List Char → Int → Option Str → Option Str
  | [], _, _ => none
  | x :: rest, depth, acc =>
    if x = o then
      if depth = 0 then extractAux o c rest (depth + 1) (some [])
      else extractAux o c rest (depth + 1) (acc.map (fun l => x :: l))
    else if x = c then
      if depth - 1 = 0 ∧ acc.isSome then acc.map List.reverse
      else extractAux o c rest (depth - 1) (acc.map (fun l => x :: l))
    else extractAux o c rest depth (acc.map (fun l => x :: l))

/-- `extractBracketContent`. -/
def extractBracketContent (s : Str) (openChar closeChar : Char) : Option Str :=
  extractAux openChar closeChar s 0 none

/-- The tail `(?:#([A-Z;]+))?$` of the group-attribute regex: matches the
end of the string directly, or a `#` followed by a capture of `[A-Z;]`
characters reaching the end. -/
def gaHashCodes : Str → Option (Option Str)
  | [] => some none
  | '#' :: cs => if cs ≠ [] ∧ cs.all isCodeChar then some (some cs) else none
  | _ => none

/-- The tail `(?:[:#]\d+)?(?:#([A-Z;]+))?$` of the group-attribute regex
after the `)` or `]`: the optional `[:#]\d+` part is tried greedily first
and dropped on failure of the continuation. -/
def gaTail (t : Str) : Option (Option Str) :=
  match t with
  | c :: rest =>
    if (c = ':' ∨ c = '#') ∧ (rest.takeWhile Char.isDigit) ≠ [] then
      match gaHashCodes (rest.dropWhile Char.isDigit) with
      | some r => some r
      | none => gaHashCodes t
    else gaHashCodes t
  | [] => some none

/-- The group-attribute regex `(?:\)|\])(?:[:#]\d+)?(?:#([A-Z;]+))?$` of
`parseVehicleGroup`: leftmost `)` or `]` whose tail matches; the result is
the `match[1]` capture of that leftmost match (which may be absent). -/
def gaScan : Str → Option (Option Str)
  | [] => none
  | x :: rest =>
    if x = ')' ∨ x = ']' then
      match gaTail rest with
      | some cap => some cap
      | none => gaScan rest
    else gaScan rest

/-- Content collected by `\(.*?\)` after an opening parenthesis: the
characters up to the nearest `)`, failing on a line terminator (the
ECMAScript `.` without the `s` flag excludes `\n`, `\r`, U+2028 and
U+2029) or the end of the string. -/
def parenInner : Str → Option Str
  | [] => none
  | x :: rest =>
    if x = ')' then some []
    else if x = '\n' ∨ x = '\r' ∨ x = '\u2028' ∨ x = '\u2029' then none
    else (parenInner rest).map (fun l => x :: l)

/-- The regex `\((.*?)\)` of `parseVehicleGroup`, returning `match[0]`
(the full matched span including both parentheses) of the leftmost
match. -/
def firstParenMatch : Str → Option Str
  | [] => none
  | x :: rest =>
    if x = '(' then
      match parenInner rest with
      | some inner => some ('(' :: inner ++ [')'])
      | none => firstParenMatch rest
    else firstParenMatch rest

/-- The regex `@([A-Z])` applied to a token value in `parseVehicleGroup`
and `parseFormationString`: first `@` followed by an uppercase letter;
the remainder after the two-character match is also returned. -/
def sectorMarkerSplit : Str → Option (Char × Str)
  | '@' :: c :: rest => if c.isUpper then some (c, rest) else sectorMarkerSplit (c :: rest)
  | _ :: rest => sectorMarkerSplit rest
  | [] => none

/-- Group-attribute patch of `parseVehicleGroup`: append each attribute
whose code the wagon does not already carry. -/
def addMissingAttrs (w : TrainWagon) (ga : List WagonAttribute) : TrainWagon :=
  ga.foldl
    (fun w attr =>
      if w.attributes.any (fun a => a.code = attr.code) then w
      else { w with attributes := w.attributes ++ [attr] })
    w

/-- Message set at the parenthesised group boundaries. -/
def MSG_NEIGHBOURING : Str := str "No passage to the neighbouring coach possible"

/-- The token loop of `parseVehicleGroup`: `i` is the index of the head
token in the full token list of the group, `total` that list's length. -/
def groupLoop (ga : List WagonAttribute) (pm : Option Str) (total : Nat) :
    List FormationToken → Nat → Str → Nat → List TrainWagon
  | [], _, _, _ => []
  | t :: rest, i, currentSector, position =>
    if t.type = TokenType.SECTOR then
      match sectorMarkerSplit t.value with
      | some cr => groupLoop ga pm total rest (i + 1) [cr.1] position
      | none => groupLoop ga pm total rest (i + 1) currentSector position
    else if t.type ≠ TokenType.VEHICLE ∧ t.type ≠ TokenType.FICTITIOUS_WAGON then
      groupLoop ga pm total rest (i + 1) currentSector position
    else
      match parseVehicleToken t.value currentSector position with
      | none => groupLoop ga pm total rest (i + 1) currentSector (position + 1)
      | some w =>
        let isLastRealWagon := rest.all (fun t2 => t2.type ≠ TokenType.VEHICLE)
        let w := if isLastRealWagon ∧ ga.length > 0 then addMissingAttrs w ga else w
        let w :=
          if i = 0 ∧ pm.isSome ∧ strStarts (pm.getD []) ['('] then
            { w with noAccessToPrevious := true, noAccessMessage := some MSG_NEIGHBOURING }
          else w
        let w :=
          if i = total - 1 ∧ pm.isSome ∧ strEnds (pm.getD []) [')'] then
            { w with noAccessToNext := true, noAccessMessage := some MSG_NEIGHBOURING }
          else w
        w :: groupLoop ga pm total rest (i + 1) currentSector (position + 1)

/-- `parseVehicleGroup`. -/
def parseVehicleGroup (groupContent : Str) (sector : Str) (startPosition : Nat) :
    List TrainWagon :=
  let tokens := tokenizeFormationString groupContent
  let groupAttributes : List WagonAttribute :=
    match gaScan groupContent with
    | some (some codes) =>
      (splitOnChar ';' codes).foldl
        (fun acc offer =>
          match getAttributeObject offer with
          | some attr => acc ++ [attr]
          | none => acc)
        []
    | _ => []
  let pm := firstParenMatch groupContent
  groupLoop groupAttributes pm tokens.length tokens 0 sector startPosition

/-- The sector-to-wagons `Map` of `parseFormationString`, in insertion
order (JS `Map` preserves the order keys were first inserted). -/
abbrev SectorMap := List (Str × List TrainWagon)

/-- JS `sectorMap.get(k) || []`. -/
def mapGetD (m : SectorMap) (k : Str) : List TrainWagon :=
  match m.find? (fun e => e.1 = k) with
  | some e => e.2
  | none => []

/-- JS `sectorMap.has(k)`. -/
def mapHas (m : SectorMap) (k : Str) : Bool := (m.find? (fun e => e.1 = k)).isSome

/-- JS `sectorMap.set(k, v)`: replace in place, or append a new entry. -/
def mapSet : SectorMap → Str → List TrainWagon → SectorMap
  | [], k, v => [(k, v)]
  | e :: rest, k, v => if e.1 = k then (k, v) :: rest else e :: mapSet rest k v

/-- Removal of the consumed bracket group in `processSegment`:
`segment.substring(0, indexOf('[')) + segment.substring(indexOf(']', start) + 1)`.
The fallback branches reproduce the JS index arithmetic and are
unreachable when `extractBracketContent` succeeded. -/
def removeFirstBracketSpan (s : Str) : Str :=
  match s.findIdx? (fun c => c = '[') with
  | none => s
  | some si =>
    match (s.drop si).findIdx? (fun c => c = ']') with
    | none => s.take si ++ s
    | some d => s.take si ++ s.drop (si + d + 1)

/-- The bracket-draining `while` loop of `processSegment`; the fuel is
structural and is instantiated with the segment length plus one, which
suffices because every successful extraction removes at least the
opening and one closing bracket. -/
def drainBrackets : Nat → Str → Str → Nat → SectorMap → Str × Nat × SectorMap
  | 0, segment, _, position, m => (segment, position, m)
  | fuel + 1, segment, currentSector, position, m =>
    match extractBracketContent segment '[' ']' with
    | none => (segment, position, m)
    | some bracketContent =>
      let wagons := parseVehicleGroup bracketContent currentSector position
      let pm :=
        if wagons.length > 0 then
          (position + wagons.length, mapSet m currentSector (mapGetD m currentSector ++ wagons))
        else (position, m)
      drainBrackets fuel (removeFirstBracketSpan segment) currentSector pm.1 pm.2

/-- One step of the loose-token loop of `processSegment` (the tokens left
outside brackets after the bracket groups were drained). -/
def looseTokenStep (currentSector : Str) (pm : Nat × SectorMap) (token : Str) :
    Nat × SectorMap :=
  let trimmedToken := trim token
  if trimmedToken = str "F" then (pm.1 + 1, pm.2)
  else if isPotentialWagonToken trimmedToken then
    match parseVehicleToken trimmedToken currentSector pm.1 with
    | some wagon =>
      (pm.1 + 1, mapSet pm.2 currentSector (mapGetD pm.2 currentSector ++ [wagon]))
    | none => pm
  else pm

/-- `processSegment`. -/
def processSegment (segment : Str) (currentSector : Str) (position : Nat)
    (m : SectorMap) : Nat × SectorMap :=
  let smp := drainBrackets (segment.length + 1) segment currentSector position m
  let tokens := (splitOnPred (fun c => c = ',' ∨ c = '\\') smp.1).filter (fun t => ¬ blank t)
  tokens.foldl (looseTokenStep currentSector) (smp.2.1, smp.2.2)

/-- The JS split `formationString.split(/(?=@[A-Z])/)`: cut immediately
before every `@` followed by an uppercase letter, except at the start of
the string (an empty separator match at the previous cut is skipped). -/
def splitBeforeSectorMarkers : List Char → Str → List Str
  | [], cur => [cur]
  | '@' :: c :: rest, cur =>
    if c.isUpper then
      if cur = [] then splitBeforeSectorMarkers rest ['@', c]
      else cur :: splitBeforeSectorMarkers rest ['@', c]
    else splitBeforeSectorMarkers (c :: rest) (cur ++ ['@'])
  | x :: rest, cur => splitBeforeSectorMarkers rest (cur ++ [x])

/-- The per-segment loop of the sector branch of `parseFormationString`:
blank segments are skipped; a segment with a sector marker updates the
current sector, pre-registers it in the map, and is processed from just
after the marker. -/
def processSegments : List Str → Str → Nat → SectorMap → SectorMap
  | [], _, _, m => m
  | segment :: rest, currentSector, position, m =>
    if blank segment then processSegments rest currentSector position m
    else
      match sectorMarkerSplit segment with
      | some cr =>
        let m := if mapHas m [cr.1] then m else m ++ [([cr.1], [])]
        let pm := processSegment cr.2 [cr.1] position m
        processSegments rest [cr.1] pm.1 pm.2
      | none =>
        let pm := processSegment segment currentSector position m
        processSegments rest currentSector pm.1 pm.2

/-- The section list built from the sector map: entries with wagons, in
insertion order. -/
def sectionsFromMap (m : SectorMap) : List TrainSection :=
  m.filterMap (fun e => if e.2.length > 0 then some ⟨e.1, e.2⟩ else none)

/-- Messages of the finalization pass. -/
def MSG_PREV : Str := str "No passage to previous coach"

/-- Messages of the finalization pass. -/
def MSG_NEXT : Str := str "No passage to next coach"

/-- `wagon.type === 'locomotive'`. -/
def isLoco (w : TrainWagon) : Bool := w.type = str "locomotive"

/-- The message pre-pass of `finalizeTrainSections`: a set flag
overwrites the message with the simple per-wagon default (the
`noAccessToNext` assignment runs second and wins when both are set). -/
def setPrePassMessages (w : TrainWagon) : TrainWagon :=
  let w := if w.noAccessToPrevious then { w with noAccessMessage := some MSG_PREV } else w
  if w.noAccessToNext then { w with noAccessMessage := some MSG_NEXT } else w

/-- Position assignment and locomotive status clearing for the wagon at
hand in the sequential pass of `finalizeTrainSections`. -/
def assignWagon (w : TrainWagon) (pos : Nat) : TrainWagon :=
  let w := { w with position := pos }
  if isLoco w then { w with statusCodes := [] } else w

/-- The pairwise adjustment of the sequential pass of
`finalizeTrainSections` between the previous wagon and the current one. -/
def pairAdjust (prev w : TrainWagon) : TrainWagon × TrainWagon :=
  if (prev.noAccessToNext || w.noAccessToPrevious) && !(isLoco w) && !(isLoco prev) then
    ({ prev with
        noAccessToNext := true
        noAccessMessage :=
          (match prev.noAccessMessage with
           | none => some MSG_NEXT
           | some msg => some msg) },
     { w with
        noAccessToPrevious := true
        noAccessMessage :=
          (match w.noAccessMessage with
           | none => some MSG_PREV
           | some msg => some msg) })
  else if isLoco w || isLoco prev then
    let pw :=
      if isLoco w then
        ({ prev with noAccessToNext := false, noAccessMessage := none },
         { w with noAccessToPrevious := false, noAccessMessage := none })
      else (prev, w)
    let prev2 := pw.1
    let w2 := pw.2
    if isLoco prev && !(isLoco w) then
      ({ prev2 with noAccessToNext := false, noAccessMessage := none },
       { w2 with noAccessToPrevious := false, noAccessMessage := none })
    else pw
  else (prev, w)

/-- The sequential pass of `finalizeTrainSections`, carrying the previous
wagon (which the JS code can still mutate when processing the current
one) and emitting it once its successor has been handled. -/
def fpGo : TrainWagon → List TrainWagon → Nat → List TrainWagon
  | prev, [], _ => [prev]
  | prev, w :: rest, pos =>
    let wa := assignWagon w pos
    let pw := pairAdjust prev wa
    pw.1 :: fpGo pw.2 rest (pos + 1)

/-- The whole sequential pass over the flattened wagon list. -/
def finalizePass : List TrainWagon → List TrainWagon
  | [] => []
  | w :: rest => fpGo (assignWagon w 0) rest 1

/-- Regrouping the flattened finalized wagons into the section shapes;
this models the JS aliasing where the section arrays and the flat array
hold the same (mutated) wagon objects. -/
def regroup : List TrainSection → List TrainWagon → List TrainSection
  | [], _ => []
  | s :: ss, ws =>
    { s with wagons := ws.take s.wagons.length } :: regroup ss (ws.drop s.wagons.length)

/-- `finalizeTrainSections`. -/
def finalizeTrainSections (sections : List TrainSection) : List TrainSection :=
  let filteredSections := sections.filter (fun s => s.wagons.length > 0)
  let pre := filteredSections.map (fun s => { s with wagons := s.wagons.map setPrePassMessages })
  let allWagons := (pre.map (fun s => s.wagons)).flatten
  regroup pre (finalizePass allWagons)

/-- `parseFormationString`; the JS sector check is
`includes('@') || /\\@[A-Z]/.test(...)`, whose second disjunct requires a
`@` and is therefore subsumed by the first, and the no-sector fallback
guard `if (!bracketContent)` is a falsy test that fires both on a missing
bracket group (null) and on an empty bracket content (empty string). -/
def parseFormationString (formationString : Str) : List TrainSection :=
  if blank formationString then []
  else
    let hasSectors := formationString.contains '@'
    let m : SectorMap :=
      if hasSectors then
        processSegments (splitBeforeSectorMarkers formationString []) [] 0 []
      else
        let bracketContent :=
          match extractBracketContent formationString '[' ']' with
          | some c => if c = [] then formationString else c
          | none => formationString
        (processSegment bracketContent [] 0 []).2
    finalizeTrainSections (sectionsFromMap m)

/-- All wagons of a section list, flattened in order. -/
def allWagons (sections : List TrainSection) : List TrainWagon :=
  (sections.map (fun s => s.wagons)).flatten

/-- Travel directions (`TravelDirection`). -/
inductive TravelDirection where
  | left
  | right
  | unknown
deriving DecidableEq, Repr

/-- The ordered visual sector list of `determineTravelDirection`: the
parsed sections' sectors, keeping the non-blank ones. -/
def visualSectorsOf (formationString : Str) : List Str :=
  ((parseFormationString formationString).map (fun s => s.sector)).filter
    (fun s => ¬ blank s)

/-- The vehicle sector list of `determineTravelDirection`: the sector
field split on commas, trimmed, keeping the non-empty parts. -/
def vehicleSectorsOf (sectors : Str) : List Str :=
  ((splitOnChar ',' sectors).map trim).filter (fun s => s ≠ [])

/-- `determineTravelDirection`; the second argument is the sectors field
of the first vehicle at the stop (an absent field is the empty string,
which the guard treats as falsy). -/
def determineTravelDirection (formationString : Str) (sectors : Str) : TravelDirection :=
  if blank formationString ∨ sectors = [] then TravelDirection.unknown
  else
    let visualSectors := visualSectorsOf formationString
    if visualSectors = [] then TravelDirection.unknown
    else
      let vehicleSectors := vehicleSectorsOf sectors
      if vehicleSectors = [] then TravelDirection.unknown
      else
        if vehicleSectors.contains (visualSectors.headD []) then TravelDirection.left
        else if vehicleSectors.contains (visualSectors.getLastD []) then TravelDirection.right
        else TravelDirection.unknown

/-- Adjacency invariant between the finalized wagon `a` and its immediate
successor `b`: symmetric no-passage flags, and cleared facing flags when
either side is a locomotive. -/
def pairProp (a b : TrainWagon) : Prop :=
  a.noAccessToNext = b.noAccessToPrevious ∧
    ((isLoco a = true ∨ isLoco b = true) →
      a.noAccessToNext = false ∧ b.noAccessToPrevious = false)

/-- `pairProp` along a wagon list, between each wagon and its successor. -/
def fwdChain : List TrainWagon → Prop
  | a :: b :: rest => pairProp a b ∧ fwdChain (b :: rest)
  | _ => True

/-- The classes of a wagon are drawn from `1` and `2`. -/
def classesOK (w : TrainWagon) : Prop := ∀ c ∈ w.classes, c = '1' ∨ c = '2'

/-- A locomotive carries no status codes. -/
def locoStatusOK (w : TrainWagon) : Prop := isLoco w = true → w.statusCodes = []

/-- All wagons stored in a sector map have well-formed classes. -/
def mapClassesOK (m : SectorMap) : Prop := ∀ e ∈ m, ∀ w ∈ e.2, classesOK w

/-- Shape of the sector map in the sector-free branch: empty, or a single
entry under the default (empty) sector. -/
def mapQ (m : SectorMap) : Prop := m = [] ∨ ∃ ws, m = [(([] : Str), ws)]

/-- Default token used to state concrete witness facts. -/
def defaultToken : FormationToken :=
  { type := TokenType.UNKNOWN, value := [], position := 0 }

section FinalizeLemmas

lemma pairAdjust_fst (p w : TrainWagon) :
    (pairAdjust p w).1.position = p.position ∧
    (pairAdjust p w).1.type = p.type ∧
    (pairAdjust p w).1.noAccessToPrevious = p.noAccessToPrevious ∧
    (pairAdjust p w).1.statusCodes = p.statusCodes ∧
    (pairAdjust p w).1.classes = p.classes := by
  unfold pairAdjust
  split
  · exact ⟨rfl, rfl, rfl, rfl, rfl⟩
  · split
    · dsimp only
      split <;> split <;> exact ⟨rfl, rfl, rfl, rfl, rfl⟩
    · exact ⟨rfl, rfl, rfl, rfl, rfl⟩

lemma pairAdjust_snd (p w : TrainWagon) :
    (pairAdjust p w).2.position = w.position ∧
    (pairAdjust p w).2.type = w.type ∧
    (pairAdjust p w).2.noAccessToNext = w.noAccessToNext ∧
    (pairAdjust p w).2.statusCodes = w.statusCodes ∧
    (pairAdjust p w).2.classes = w.classes := by
  unfold pairAdjust
  split
  · exact ⟨rfl, rfl, rfl, rfl, rfl⟩
  · split
    · dsimp only
      split <;> split <;> exact ⟨rfl, rfl, rfl, rfl, rfl⟩
    · exact ⟨rfl, rfl, rfl, rfl, rfl⟩

lemma isLoco_of_type_eq {a b : TrainWagon} (h : a.type = b.type) : isLoco a = isLoco b := by
  simp [isLoco, h]

lemma pairAdjust_pairProp (p w : TrainWagon) :
    pairProp (pairAdjust p w).1 (pairAdjust p w).2 := by
  have hf := pairAdjust_fst p w
  have hs := pairAdjust_snd p w
  unfold pairProp
  unfold pairAdjust
  split
  · next hcond =>
    simp only [Bool.and_eq_true, Bool.not_eq_true', Bool.or_eq_true] at hcond
    constructor
    · rfl
    · intro hl
      simp only [isLoco] at *
      rcases hl with hl | hl <;> simp_all
  · next hcond1 =>
    split
    · next hcond2 =>
      dsimp only
      simp only [Bool.or_eq_true] at hcond2
      by_cases hw : isLoco w = true
      · simp [hw]
      · have hp : isLoco p = true := by
          rcases hcond2 with h | h
          · exact absurd h hw
          · exact h
        simp [hw, hp]
    · next hcond2 =>
      simp only [Bool.or_eq_true, not_or, Bool.not_eq_true] at hcond2
      simp only [Bool.and_eq_true, Bool.not_eq_true', Bool.or_eq_true, not_and, not_or] at hcond1
      have h1 := hcond1
      constructor
      · have : ¬ (p.noAccessToNext = true ∨ w.noAccessToPrevious = true) := by
          intro hor
          have := h1 ⟨by
            rcases hor with h | h
            · exact Or.inl h
            · exact Or.inr h, hcond2.1⟩
          exact this hcond2.2
        simp only [not_or, Bool.not_eq_true] at this
        rw [this.1, this.2]
      · intro hl
        rcases hl with hl | hl
        · rw [hcond2.2] at hl; cases hl
        · rw [hcond2.1] at hl; cases hl

lemma assignWagon_fields (w : TrainWagon) (pos : Nat) :
    (assignWagon w pos).position = pos ∧
    (assignWagon w pos).type = w.type ∧
    (assignWagon w pos).noAccessToPrevious = w.noAccessToPrevious ∧
    (assignWagon w pos).noAccessToNext = w.noAccessToNext ∧
    (assignWagon w pos).classes = w.classes := by
  unfold assignWagon
  dsimp only
  split <;> exact ⟨rfl, rfl, rfl, rfl, rfl⟩

lemma assignWagon_locoStatus (w : TrainWagon) (pos : Nat) :
    locoStatusOK (assignWagon w pos) := by
  unfold locoStatusOK assignWagon
  dsimp only
  split
  · next h =>
    intro _
    rfl
  · next h =>
    intro hl
    exact absurd (by simpa [isLoco] using hl) (by simpa [isLoco] using h)

lemma fpGo_length (prev : TrainWagon) (ws : List TrainWagon) (pos : Nat) :
    (fpGo prev ws pos).length = ws.length + 1 := by
  induction ws generalizing prev pos with
  | nil => rfl
  | cons w rest ih => simp [fpGo, ih]

lemma fpGo_ne_nil (prev : TrainWagon) (ws : List TrainWagon) (pos : Nat) :
    fpGo prev ws pos ≠ [] := by
  cases ws <;> simp [fpGo]

lemma fpGo_head (prev : TrainWagon) (ws : List TrainWagon) (pos : Nat) :
    ∃ h t, fpGo prev ws pos = h :: t ∧ h.noAccessToPrevious = prev.noAccessToPrevious ∧
      h.type = prev.type ∧ h.position = prev.position ∧ h.statusCodes = prev.statusCodes := by
  cases ws with
  | nil => exact ⟨prev, [], rfl, rfl, rfl, rfl, rfl⟩
  | cons w rest =>
    have hf := pairAdjust_fst prev (assignWagon w pos)
    exact ⟨_, _, rfl, hf.2.2.1, hf.2.1, hf.1, hf.2.2.2.1⟩

lemma fpGo_map_position (prev : TrainWagon) (ws : List TrainWagon) (pos : Nat) :
    (fpGo prev ws pos).map (fun w => w.position) =
      prev.position :: List.range' pos ws.length := by
  induction ws generalizing prev pos with
  | nil => simp [fpGo]
  | cons w rest ih =>
    have hf := pairAdjust_fst prev (assignWagon w pos)
    have hs := pairAdjust_snd prev (assignWagon w pos)
    have ha := assignWagon_fields w pos
    simp only [fpGo, List.map_cons, ih, hf.1, hs.1, ha.1]
    rw [List.length_cons, List.range'_succ]

lemma fpGo_chain (prev : TrainWagon) (ws : List TrainWagon) (pos : Nat)
    (hprev : locoStatusOK prev) :
    fwdChain (fpGo prev ws pos) ∧ ∀ w ∈ fpGo prev ws pos, locoStatusOK w := by
  induction ws generalizing prev pos with
  | nil =>
    refine ⟨trivial, ?_⟩
    intro w hw
    simp only [fpGo, List.mem_singleton] at hw
    exact hw ▸ hprev
  | cons w rest ih =>
    have hs := pairAdjust_snd prev (assignWagon w pos)
    have hf := pairAdjust_fst prev (assignWagon w pos)
    have hwa : locoStatusOK (pairAdjust prev (assignWagon w pos)).2 := by
      intro hl
      rw [hs.2.2.2.1]
      exact assignWagon_locoStatus w pos (by rw [← isLoco_of_type_eq hs.2.1]; exact hl)
    have ihres := ih (pairAdjust prev (assignWagon w pos)).2 (pos + 1) hwa
    constructor
    · show fwdChain ((pairAdjust prev (assignWagon w pos)).1 :: fpGo _ rest (pos + 1))
      obtain ⟨h, t, heq, hp, hty, _, _⟩ :=
        fpGo_head (pairAdjust prev (assignWagon w pos)).2 rest (pos + 1)
      rw [heq]
      refine ⟨?_, by rw [← heq]; exact ihres.1⟩
      have hpp := pairAdjust_pairProp prev (assignWagon w pos)
      unfold pairProp at hpp ⊢
      rw [hp, isLoco_of_type_eq hty]
      exact hpp
    · intro x hx
      simp only [fpGo, List.mem_cons] at hx
      rcases hx with hx | hx
      · subst hx
        intro hl
        rw [hf.2.2.2.1]
        exact hprev (by rw [← isLoco_of_type_eq hf.2.1]; exact hl)
      · exact ihres.2 x hx

lemma finalizePass_length (ws : List TrainWagon) :
    (finalizePass ws).length = ws.length := by
  cases ws with
  | nil => rfl
  | cons w rest => simp [finalizePass, fpGo_length]

lemma finalizePass_map_position (ws : List TrainWagon) :
    (finalizePass ws).map (fun w => w.position) = List.range ws.length := by
  cases ws with
  | nil => rfl
  | cons w rest =>
    have ha := assignWagon_fields w 0
    simp only [finalizePass, fpGo_map_position, ha.1, List.length_cons]
    rw [List.range_eq_range', List.range'_succ]

lemma finalizePass_chain (ws : List TrainWagon) :
    fwdChain (finalizePass ws) ∧ ∀ w ∈ finalizePass ws, locoStatusOK w := by
  cases ws with
  | nil => exact ⟨trivial, by intro w hw; cases hw⟩
  | cons w rest => exact fpGo_chain _ rest 1 (assignWagon_locoStatus w 0)

lemma regroup_flatten (secs : List TrainSection) (ws : List TrainWagon)
    (h : ws.length = ((secs.map (fun s => s.wagons)).flatten).length) :
    ((regroup secs ws).map (fun s => s.wagons)).flatten = ws := by
  induction secs generalizing ws with
  | nil =>
    simp only [List.map_nil, List.flatten_nil, List.length_nil] at h
    simp [regroup, List.length_eq_zero.mp h]
  | cons s ss ih =>
    simp only [List.map_cons, List.flatten_cons, List.length_append] at h
    simp only [regroup, List.map_cons, List.flatten_cons]
    rw [ih (ws.drop s.wagons.length) (by rw [List.length_drop]; omega)]
    exact List.take_append_drop _ ws

lemma allWagons_finalize (secs : List TrainSection) :
    allWagons (finalizeTrainSections secs) =
      finalizePass (((secs.filter (fun s => s.wagons.length > 0)).map
        (fun s => { s with wagons := s.wagons.map setPrePassMessages })).map
          (fun s => s.wagons)).flatten := by
  unfold allWagons finalizeTrainSections
  exact regroup_flatten _ _ (by rw [finalizePass_length])

lemma parse_eq_finalize (s : Str) :
    ∃ secs, parseFormationString s = finalizeTrainSections secs := by
  unfold parseFormationString
  split
  · exact ⟨[], rfl⟩
  · exact ⟨_, rfl⟩

lemma fwdChain_get {l : List TrainWagon} (hc : fwdChain l) :
    ∀ i a b, l[i]? = some a → l[i + 1]? = some b → pairProp a b := by
  induction l with
  | nil => intro i a b ha; simp at ha
  | cons x rest ih =>
    intro i a b ha hb
    cases rest with
    | nil =>
      cases i with
      | zero => simp at hb
      | succ j => simp at hb
    | cons y t =>
      cases i with
      | zero =>
        simp only [List.getElem?_cons_zero, Option.some.injEq] at ha
        simp only [List.getElem?_cons_succ, List.getElem?_cons_zero, Option.some.injEq] at hb
        exact ha ▸ hb ▸ hc.1
      | succ j =>
        rw [List.getElem?_cons_succ] at ha hb
        exact ih hc.2 j a b ha hb

end FinalizeLemmas

section ClassesLemmas

lemma classNumMatch_mem {s : Str} {c : Char} (h : classNumMatch s = some c) :
    c = '1' ∨ c = '2' := by
  cases s with
  | nil => cases h
  | cons x rest =>
    rw [classNumMatch] at h
    by_cases hx : x = '1' ∨ x = '2'
    · rw [if_pos hx] at h
      have hc : c = x := by
        rcases hsep : classNumSep rest with _ | r
        · rw [hsep] at h; cases h
        · rw [hsep] at h
          cases r with
          | nil => cases h
          | cons d r2 =>
            by_cases hd : d.isDigit
            · simp only [hd, if_true, Option.some.injEq] at h
              exact h.symm
            · simp only [hd, if_false] at h
              cases h
      rcases hx with hx | hx
      · exact Or.inl (hc.trans hx)
      · exact Or.inr (hc.trans hx)
    · rw [if_neg hx] at h
      cases h

lemma determineWagonClasses_ok (t : Str) :
    ∀ c ∈ determineWagonClasses t, c = '1' ∨ c = '2' := by
  unfold determineWagonClasses
  intro c hc
  split at hc
  · simp only [List.mem_singleton] at hc
    exact Or.inr hc
  · dsimp only at hc
    split at hc
    · next c0 heq =>
      simp only [List.mem_singleton] at hc
      exact hc ▸ classNumMatch_mem heq
    · split at hc
      · simp only [List.mem_singleton] at hc
        exact Or.inr hc
      · split at hc
        · simp only [List.mem_singleton] at hc
          exact Or.inl hc
        · split at hc
          · simp only [List.mem_singleton] at hc
            exact Or.inr hc
          · rcases List.mem_append.mp hc with hm | hm
            · split at hm
              · simp only [List.mem_singleton] at hm
                exact Or.inl hm
              · cases hm
            · split at hm
              · simp only [List.mem_singleton] at hm
                exact Or.inr hm
              · cases hm

lemma parseVehicleToken_some_classes {tok cs : Str} {pos : Nat} {w : TrainWagon}
    (h : parseVehicleToken tok cs pos = some w) :
    w.classes = determineWagonClasses (stripLeadingStatus tok) := by
  unfold parseVehicleToken at h
  split at h
  · cases h
  · simp only [Option.some.injEq] at h
    rw [← h]

lemma parseVehicleToken_classesOK {tok cs : Str} {pos : Nat} {w : TrainWagon}
    (h : parseVehicleToken tok cs pos = some w) : classesOK w := by
  intro c hc
  rw [parseVehicleToken_some_classes h] at hc
  exact determineWagonClasses_ok _ c hc

lemma parseVehicleToken_family {tok cs : Str} {pos : Nat} {w : TrainWagon}
    (h : parseVehicleToken tok cs pos = some w)
    (hf : familyTest (stripLeadingStatus tok) = true) : w.classes = ['2'] := by
  rw [parseVehicleToken_some_classes h]
  unfold determineWagonClasses
  rw [if_pos hf]

lemma addMissingAttrs_classes (w : TrainWagon) (ga : List WagonAttribute) :
    (addMissingAttrs w ga).classes = w.classes := by
  unfold addMissingAttrs
  induction ga generalizing w with
  | nil => rfl
  | cons a rest ih =>
    simp only [List.foldl_cons]
    rw [ih]
    split <;> rfl

lemma groupLoop_classesOK (ga : List WagonAttribute) (pm : Option Str) (total : Nat) :
    ∀ toks i cs pos, ∀ w ∈ groupLoop ga pm total toks i cs pos, classesOK w := by
  intro toks
  induction toks with
  | nil => intro i cs pos w hw; cases hw
  | cons t rest ih =>
    intro i cs pos w hw
    unfold groupLoop at hw
    split at hw
    · split at hw
      · exact ih _ _ _ w hw
      · exact ih _ _ _ w hw
    · split at hw
      · exact ih _ _ _ w hw
      · split at hw
        · exact ih _ _ _ w hw
        · next w0 hw0 =>
          simp only [List.mem_cons] at hw
          rcases hw with hw | hw
          · subst hw
            intro c hc
            have hbase : classesOK (if (rest.all fun t2 => t2.type ≠ TokenType.VEHICLE) ∧
                ga.length > 0 then addMissingAttrs w0 ga else w0) := by
              split
              · intro c hc
                rw [addMissingAttrs_classes] at hc
                exact parseVehicleToken_classesOK hw0 c hc
              · exact parseVehicleToken_classesOK hw0
            revert hc
            split <;> split <;> exact hbase c
          · exact ih _ _ _ w hw

lemma parseVehicleGroup_classesOK (content sector : Str) (pos : Nat) :
    ∀ w ∈ parseVehicleGroup content sector pos, classesOK w := by
  intro w hw
  unfold parseVehicleGroup at hw
  exact groupLoop_classesOK _ _ _ _ _ _ _ w hw

end ClassesLemmas

section MapLemmas

lemma mapGetD_classesOK {m : SectorMap} (hm : mapClassesOK m) (k : Str) :
    ∀ w ∈ mapGetD m k, classesOK w := by
  intro w hw
  unfold mapGetD at hw
  split at hw
  · next e he => exact hm e (List.mem_of_find?_eq_some he) w hw
  · cases hw

lemma mapSet_classesOK : ∀ (m : SectorMap) (k : Str) (v : List TrainWagon),
    mapClassesOK m → (∀ w ∈ v, classesOK w) → mapClassesOK (mapSet m k v) := by
  intro m
  induction m with
  | nil =>
    intro k v _ hv e he w hw
    simp only [mapSet, List.mem_singleton] at he
    subst he
    exact hv w hw
  | cons e0 rest ih =>
    intro k v hm hv e he w hw
    unfold mapSet at he
    split at he
    · rcases List.mem_cons.mp he with he | he
      · subst he; exact hv w hw
      · exact hm e (List.mem_cons_of_mem _ he) w hw
    · rcases List.mem_cons.mp he with he | he
      · subst he; exact hm _ (List.mem_cons_self _ _) w hw
      · exact ih k v (fun e1 he1 => hm e1 (List.mem_cons_of_mem _ he1)) hv e he w hw

lemma drainBrackets_classesOK (fuel : Nat) :
    ∀ seg cs pos (m : SectorMap), mapClassesOK m →
      mapClassesOK (drainBrackets fuel seg cs pos m).2.2 := by
  induction fuel with
  | zero => intro seg cs pos m hm; exact hm
  | succ n ih =>
    intro seg cs pos m hm
    unfold drainBrackets
    split
    · exact hm
    · next bc hbc =>
      dsimp only
      split
      · refine ih _ _ _ _ ?_
        refine mapSet_classesOK _ _ _ hm ?_
        intro w hw
        rcases List.mem_append.mp hw with hw | hw
        · exact mapGetD_classesOK hm _ w hw
        · exact parseVehicleGroup_classesOK _ _ _ w hw
      · exact ih _ _ _ _ hm

lemma looseTokenStep_classesOK {cs : Str} {pm : Nat × SectorMap} (hm : mapClassesOK pm.2)
    (t : Str) : mapClassesOK (looseTokenStep cs pm t).2 := by
  simp only [looseTokenStep]
  split
  · exact hm
  · split
    · split
      · next w0 hw0 =>
        refine mapSet_classesOK _ _ _ hm ?_
        intro w hw
        rcases List.mem_append.mp hw with hw | hw
        · exact mapGetD_classesOK hm _ w hw
        · simp only [List.mem_singleton] at hw
          exact hw ▸ parseVehicleToken_classesOK hw0
      · exact hm
    · exact hm

lemma foldl_looseTokenStep_classesOK (cs : Str) :
    ∀ (toks : List Str) (pm : Nat × SectorMap), mapClassesOK pm.2 →
      mapClassesOK (toks.foldl (looseTokenStep cs) pm).2 := by
  intro toks
  induction toks with
  | nil => intro pm hm; exact hm
  | cons t rest ih =>
    intro pm hm
    simp only [List.foldl_cons]
    exact ih _ (looseTokenStep_classesOK hm t)

lemma processSegment_classesOK {seg cs : Str} {pos : Nat} {m : SectorMap}
    (hm : mapClassesOK m) : mapClassesOK (processSegment seg cs pos m).2 := by
  unfold processSegment
  exact foldl_looseTokenStep_classesOK _ _ _ (drainBrackets_classesOK _ _ _ _ _ hm)

lemma processSegments_classesOK :
    ∀ (segs : List Str) (cs : Str) (pos : Nat) (m : SectorMap), mapClassesOK m →
      mapClassesOK (processSegments segs cs pos m) := by
  intro segs
  induction segs with
  | nil => intro cs pos m hm; exact hm
  | cons seg rest ih =>
    intro cs pos m hm
    unfold processSegments
    split
    · exact ih _ _ _ hm
    · split
      · refine ih _ _ _ (processSegment_classesOK ?_)
        split
        · exact hm
        · intro e he w hw
          rcases List.mem_append.mp he with he | he
          · exact hm e he w hw
          · simp only [List.mem_singleton] at he
            subst he
            cases hw
      · exact ih _ _ _ (processSegment_classesOK hm)

lemma sectionsFromMap_classesOK {m : SectorMap} (hm : mapClassesOK m) :
    ∀ sec ∈ sectionsFromMap m, ∀ w ∈ sec.wagons, classesOK w := by
  intro sec hsec w hw
  unfold sectionsFromMap at hsec
  rcases List.mem_filterMap.mp hsec with ⟨e, he, heq⟩
  split at heq
  · cases heq
    exact hm e he w hw
  · cases heq

lemma setPrePassMessages_classes (w : TrainWagon) :
    (setPrePassMessages w).classes = w.classes := by
  unfold setPrePassMessages
  dsimp only
  split <;> split <;> rfl

lemma fpGo_classesOK (prev : TrainWagon) (ws : List TrainWagon) (pos : Nat)
    (hprev : classesOK prev) (hws : ∀ w ∈ ws, classesOK w) :
    ∀ w ∈ fpGo prev ws pos, classesOK w := by
  induction ws generalizing prev pos with
  | nil =>
    intro w hw
    simp only [fpGo, List.mem_singleton] at hw
    exact hw ▸ hprev
  | cons w0 rest ih =>
    intro w hw
    simp only [fpGo, List.mem_cons] at hw
    have hf := pairAdjust_fst prev (assignWagon w0 pos)
    have hs := pairAdjust_snd prev (assignWagon w0 pos)
    have ha := assignWagon_fields w0 pos
    rcases hw with hw | hw
    · subst hw
      intro c hc
      rw [hf.2.2.2.2] at hc
      exact hprev c hc
    · refine ih _ _ ?_ (fun x hx => hws x (List.mem_cons_of_mem _ hx)) w hw
      intro c hc
      rw [hs.2.2.2.2, ha.2.2.2.2] at hc
      exact hws w0 (List.mem_cons_self _ _) c hc

lemma finalizePass_classesOK {ws : List TrainWagon} (hws : ∀ w ∈ ws, classesOK w) :
    ∀ w ∈ finalizePass ws, classesOK w := by
  cases ws with
  | nil => intro w hw; cases hw
  | cons w0 rest =>
    refine fpGo_classesOK _ _ _ ?_ (fun x hx => hws x (List.mem_cons_of_mem _ hx))
    intro c hc
    rw [(assignWagon_fields w0 0).2.2.2.2] at hc
    exact hws w0 (List.mem_cons_self _ _) c hc

lemma finalize_classesOK {secs : List TrainSection}
    (hsecs : ∀ sec ∈ secs, ∀ w ∈ sec.wagons, classesOK w) :
    ∀ w ∈ allWagons (finalizeTrainSections secs), classesOK w := by
  rw [allWagons_finalize]
  refine finalizePass_classesOK ?_
  intro w hw
  rcases List.mem_flatten.mp hw with ⟨l, hl, hwl⟩
  rcases List.mem_map.mp hl with ⟨sec, hsec, heq⟩
  subst heq
  rcases List.mem_map.mp hsec with ⟨sec0, hsec0, heq0⟩
  subst heq0
  dsimp only at hwl
  rcases List.mem_map.mp hwl with ⟨w0, hw0, heqw⟩
  subst heqw
  intro c hc
  rw [setPrePassMessages_classes] at hc
  exact hsecs sec0 (List.mem_of_mem_filter hsec0) w0 hw0 c hc

lemma parse_classesOK (s : Str) :
    ∀ w ∈ allWagons (parseFormationString s), classesOK w := by
  unfold parseFormationString
  split
  · intro w hw; cases hw
  · refine finalize_classesOK (sectionsFromMap_classesOK ?_)
    split
    · exact processSegments_classesOK _ _ _ _ (by intro e he; cases he)
    · exact processSegment_classesOK (by intro e he; cases he)

end MapLemmas

section DefaultSectorLemmas

lemma mapSet_Q {m : SectorMap} (h : mapQ m) (v : List TrainWagon) :
    mapQ (mapSet m [] v) := by
  rcases h with h | ⟨ws, h⟩ <;> subst h
  · exact Or.inr ⟨v, rfl⟩
  · exact Or.inr ⟨v, by simp [mapSet]⟩

lemma drainBrackets_Q (fuel : Nat) :
    ∀ seg pos (m : SectorMap), mapQ m → mapQ (drainBrackets fuel seg [] pos m).2.2 := by
  induction fuel with
  | zero => intro seg pos m hm; exact hm
  | succ n ih =>
    intro seg pos m hm
    unfold drainBrackets
    split
    · exact hm
    · dsimp only
      split
      · exact ih _ _ _ (mapSet_Q hm _)
      · exact ih _ _ _ hm

lemma looseTokenStep_Q {pm : Nat × SectorMap} (hm : mapQ pm.2) (t : Str) :
    mapQ (looseTokenStep [] pm t).2 := by
  simp only [looseTokenStep]
  split
  · exact hm
  · split
    · split
      · exact mapSet_Q hm _
      · exact hm
    · exact hm

lemma foldl_looseTokenStep_Q :
    ∀ (toks : List Str) (pm : Nat × SectorMap), mapQ pm.2 →
      mapQ (toks.foldl (looseTokenStep []) pm).2 := by
  intro toks
  induction toks with
  | nil => intro pm hm; exact hm
  | cons t rest ih =>
    intro pm hm
    simp only [List.foldl_cons]
    exact ih _ (looseTokenStep_Q hm t)

lemma processSegment_Q {seg : Str} {pos : Nat} {m : SectorMap} (hm : mapQ m) :
    mapQ (processSegment seg [] pos m).2 := by
  unfold processSegment
  exact foldl_looseTokenStep_Q _ _ (drainBrackets_Q _ _ _ _ hm)

lemma finalize_nil : finalizeTrainSections [] = [] := rfl

lemma finalize_single (ws : List TrainWagon) (h : ws ≠ []) :
    finalizeTrainSections [⟨[], ws⟩] =
      [⟨[], finalizePass (ws.map setPrePassMessages)⟩] := by
  have hlen : ws.length > 0 := List.length_pos.mpr h
  unfold finalizeTrainSections
  simp only [List.filter, decide_eq_true hlen, List.filter_nil, List.map_cons,
    List.map_nil, List.flatten_cons, List.flatten_nil, List.append_nil, regroup]
  rw [List.take_of_length_le (by simp [finalizePass_length])]

end DefaultSectorLemmas

section GroupBoundaryLemmas

lemma firstParenMatch_bounds :
    ∀ {content mstr : Str}, firstParenMatch content = some mstr →
      strStarts mstr ['('] = true ∧ strEnds mstr [')'] = true := by
  intro content
  induction content with
  | nil => intro mstr h; cases h
  | cons x rest ih =>
    intro mstr h
    rw [firstParenMatch] at h
    split at h
    · split at h
      · next inner hinner =>
        simp only [Option.some.injEq] at h
        subst h
        constructor
        · simp [strStarts, List.isPrefixOf]
        · rw [strEnds, List.isSuffixOf_iff_suffix]
          exact ⟨'(' :: inner, rfl⟩
      · exact ih h
    · exact ih h

lemma parseVehicleToken_some_of_nonblank {v : Str} (cs : Str) (pos : Nat)
    (h : blank v = false) : ∃ w, parseVehicleToken v cs pos = some w := by
  unfold parseVehicleToken
  rw [if_neg]
  · exact ⟨_, rfl⟩
  · intro hor
    simp only [blank, decide_eq_false_iff_not] at h
    rcases hor with hv | hv
    · exact h (by rw [hv]; rfl)
    · exact h hv

lemma groupLoop_head (ga : List WagonAttribute) (total : Nat) (mstr : Str)
    (hst : strStarts mstr ['('] = true) (t : FormationToken)
    (rest : List FormationToken) (cs : Str) (pos : Nat)
    (ht : t.type = TokenType.VEHICLE ∨ t.type = TokenType.FICTITIOUS_WAGON)
    (hb : blank t.value = false) :
    ∃ w tl, groupLoop ga (some mstr) total (t :: rest) 0 cs pos = w :: tl ∧
      w.noAccessToPrevious = true ∧ w.noAccessMessage = some MSG_NEIGHBOURING := by
  obtain ⟨w0, hw0⟩ := parseVehicleToken_some_of_nonblank cs pos hb
  have hsec : ¬ t.type = TokenType.SECTOR := by
    rcases ht with ht | ht <;> rw [ht] <;> intro hc <;> cases hc
  have hskip : ¬ (t.type ≠ TokenType.VEHICLE ∧ t.type ≠ TokenType.FICTITIOUS_WAGON) := by
    rcases ht with ht | ht
    · intro hc; exact hc.1 ht
    · intro hc; exact hc.2 ht
  unfold groupLoop
  rw [if_neg hsec, if_neg hskip, hw0]
  dsimp only
  rw [if_pos (show (0 : Nat) = 0 ∧ (some mstr).isSome = true ∧
    strStarts ((some mstr).getD []) ['('] = true from ⟨rfl, by simp, by simpa using hst⟩)]
  refine ⟨_, _, rfl, ?_, ?_⟩ <;> (split <;> rfl)

lemma groupLoop_last (ga : List WagonAttribute) (total : Nat) (mstr : Str)
    (hend : strEnds mstr [')'] = true) :
    ∀ (toks : List FormationToken) (i : Nat) (cs : Str) (pos : Nat) (t : FormationToken),
      toks.getLast? = some t →
      (t.type = TokenType.VEHICLE ∨ t.type = TokenType.FICTITIOUS_WAGON) →
      blank t.value = false → i + toks.length = total →
      ∃ w, (groupLoop ga (some mstr) total toks i cs pos).getLast? = some w ∧
        w.noAccessToNext = true ∧ w.noAccessMessage = some MSG_NEIGHBOURING := by
  intro toks
  induction toks with
  | nil => intro i cs pos t hlast; cases hlast
  | cons t0 rest ih =>
    intro i cs pos t hlast htype hblank htotal
    cases rest with
    | nil =>
      have ht0 : t0 = t := by simpa using hlast
      subst ht0
      have hi : i = total - 1 := by
        simp only [List.length_cons, List.length_nil] at htotal
        omega
      obtain ⟨w0, hw0⟩ := parseVehicleToken_some_of_nonblank cs pos hblank
      have hsec : ¬ t0.type = TokenType.SECTOR := by
        rcases htype with ht | ht <;> rw [ht] <;> intro hc <;> cases hc
      have hskip : ¬ (t0.type ≠ TokenType.VEHICLE ∧ t0.type ≠ TokenType.FICTITIOUS_WAGON) := by
        rcases htype with ht | ht
        · intro hc; exact hc.1 ht
        · intro hc; exact hc.2 ht
      unfold groupLoop
      rw [if_neg hsec, if_neg hskip, hw0]
      dsimp only
      rw [if_pos (show i = total - 1 ∧ (some mstr).isSome = true ∧
        strEnds ((some mstr).getD []) [')'] = true from ⟨hi, by simp, by simpa using hend⟩)]
      exact ⟨_, rfl, rfl, rfl⟩
    | cons r0 rs =>
      have hlast2 : (r0 :: rs).getLast? = some t := by
        rw [← List.getLast?_cons_cons]
        exact hlast
      have htot2 : ∀ j, j = i + 1 → j + (r0 :: rs).length = total := by
        intro j hj
        subst hj
        simp only [List.length_cons] at htotal ⊢
        omega
      unfold groupLoop
      split
      · split
        · obtain ⟨w, hw, hn, hm⟩ := ih (i + 1) _ pos t hlast2 htype hblank (htot2 _ rfl)
          exact ⟨w, hw, hn, hm⟩
        · obtain ⟨w, hw, hn, hm⟩ := ih (i + 1) cs pos t hlast2 htype hblank (htot2 _ rfl)
          exact ⟨w, hw, hn, hm⟩
      · split
        · obtain ⟨w, hw, hn, hm⟩ := ih (i + 1) cs pos t hlast2 htype hblank (htot2 _ rfl)
          exact ⟨w, hw, hn, hm⟩
        · split
          · obtain ⟨w, hw, hn, hm⟩ := ih (i + 1) cs (pos + 1) t hlast2 htype hblank (htot2 _ rfl)
            exact ⟨w, hw, hn, hm⟩
          · next w0 hw0 =>
            obtain ⟨w, hw, hn, hm⟩ := ih (i + 1) cs (pos + 1) t hlast2 htype hblank (htot2 _ rfl)
            have hne : groupLoop ga (some mstr) total (r0 :: rs) (i + 1) cs (pos + 1) ≠ [] := by
              intro hc
              rw [hc] at hw
              cases hw
            obtain ⟨l0, ls, hls⟩ := List.exists_cons_of_ne_nil hne
            refine ⟨w, ?_, hn, hm⟩
            rw [hls, List.getLast?_cons_cons, ← hls]
            exact hw

end GroupBoundaryLemmas

section SupportLemmas

lemma parse_blank {s : Str} (h : blank s = true) : parseFormationString s = [] := by
  unfold parseFormationString
  rw [if_pos h]

lemma visualSectorsOf_blank {fs : Str} (h : blank fs = true) : visualSectorsOf fs = [] := by
  unfold visualSectorsOf
  rw [parse_blank h]
  rfl

lemma vehicleSectorsOf_nil : vehicleSectorsOf [] = [] := rfl

lemma sectionsFromMap_Q {m : SectorMap} (h : mapQ m) :
    sectionsFromMap m = [] ∨ ∃ ws, ws ≠ [] ∧ sectionsFromMap m = [⟨[], ws⟩] := by
  rcases h with h | ⟨ws, h⟩ <;> subst h
  · exact Or.inl rfl
  · unfold sectionsFromMap
    by_cases hw : ws.length > 0
    · refine Or.inr ⟨ws, ?_, ?_⟩
      · intro hc
        subst hc
        simp at hw
      · simp [hw]
    · exact Or.inl (by simp [hw])

lemma startsOrContains_iff (c : Char) (token : Str) :
    (strStarts token [c] || token.contains c) = true ↔ c ∈ token := by
  simp only [Bool.or_eq_true]
  constructor
  · intro h
    rcases h with h | h
    · cases token with
      | nil => simp [strStarts, List.isPrefixOf] at h
      | cons x rest =>
        simp only [strStarts, List.isPrefixOf, Bool.and_eq_true, beq_iff_eq] at h
        exact List.mem_cons.mpr (Or.inl h.1)
    · simpa [List.elem_iff] using h
  · intro h
    exact Or.inr (by simpa [List.elem_iff] using h)

end SupportLemmas

/-- C1: in the decoded output, read section by section, wagon positions
are exactly `0, 1, ..., N - 1` over the real wagons after the
finalization pass, for every formation string; and a lone `F` token in
the loose-token loop consumes one position slot while adding no wagon to
the sector map. -/
theorem claim_C1_positions_contiguous :
    (∀ s : Str, (allWagons (parseFormationString s)).map (fun w => w.position) =
      List.range (allWagons (parseFormationString s)).length) ∧
    (∀ (currentSector : Str) (pos : Nat) (m : SectorMap),
      looseTokenStep currentSector (pos, m) (str "F") = (pos + 1, m)) := by
  constructor
  · intro s
    obtain ⟨secs, hs⟩ := parse_eq_finalize s
    rw [hs, allWagons_finalize, finalizePass_map_position, finalizePass_length]
  · intro cs pos m
    rfl

/-- C2: for every formation string and every pair of consecutively
positioned wagons `A` (earlier) and `B` (later) in the finalized output,
neither of which is a locomotive, `A.noAccessToNext` equals
`B.noAccessToPrevious`. -/
theorem claim_C2_adjacent_symmetric (s : Str) (i : Nat) (A B : TrainWagon)
    (hA : (allWagons (parseFormationString s))[i]? = some A)
    (hB : (allWagons (parseFormationString s))[i + 1]? = some B)
    (hAl : A.type ≠ str "locomotive") (hBl : B.type ≠ str "locomotive") :
    A.noAccessToNext = B.noAccessToPrevious := by
  obtain ⟨secs, hs⟩ := parse_eq_finalize s
  rw [hs, allWagons_finalize] at hA hB
  exact (fwdChain_get (finalizePass_chain _).1 i A B hA hB).1

/-- C2 witness: the two adjacent non-locomotive wagons of `[1:1,2:2]`. -/
theorem claim_C2_witness :
    ((allWagons (parseFormationString (str "[1:1,2:2]")))[0]?.getD defaultWagon).noAccessToNext =
      ((allWagons (parseFormationString (str "[1:1,2:2]")))[1]?.getD defaultWagon).noAccessToPrevious :=
  claim_C2_adjacent_symmetric (str "[1:1,2:2]") 0 _ _ (by decide) (by decide)
    (by decide) (by decide)

/-- C3 counterexample: `(LK)` decodes to a locomotive whose
`noAccessToPrevious` and `noAccessToNext` remain `true` after
finalization (there is no adjacent pair forcing them clear), refuting
that a locomotive never participates in no-passage flags. -/
theorem claim_C3_counterexample :
    (allWagons (parseFormationString (str "(LK)"))).map
      (fun w => (w.type, w.noAccessToPrevious, w.noAccessToNext)) =
      [(str "locomotive", true, true)] := by decide

/-- C3 amended: after finalization a locomotive carries no status codes,
and for every adjacent pair in which either wagon is a locomotive the
pair-facing flags (`noAccessToNext` of the earlier wagon and
`noAccessToPrevious` of the later one) are false; a locomotive at a train
end may keep its outward-facing flag from decoding. -/
theorem claim_C3_amended (s : Str) :
    (∀ w ∈ allWagons (parseFormationString s),
      w.type = str "locomotive" → w.statusCodes = []) ∧
    (∀ (i : Nat) (A B : TrainWagon),
      (allWagons (parseFormationString s))[i]? = some A →
      (allWagons (parseFormationString s))[i + 1]? = some B →
      (A.type = str "locomotive" ∨ B.type = str "locomotive") →
      A.noAccessToNext = false ∧ B.noAccessToPrevious = false) := by
  obtain ⟨secs, hs⟩ := parse_eq_finalize s
  constructor
  · intro w hw hl
    rw [hs, allWagons_finalize] at hw
    exact (finalizePass_chain _).2 w hw (by simp [isLoco, hl])
  · intro i A B hA hB hl
    rw [hs, allWagons_finalize] at hA hB
    refine (fwdChain_get (finalizePass_chain _).1 i A B hA hB).2 ?_
    rcases hl with hl | hl
    · exact Or.inl (by simp [isLoco, hl])
    · exact Or.inr (by simp [isLoco, hl])

/-- C3 witness: the locomotive pair of `[LK,1:1]` has cleared facing
flags. -/
theorem claim_C3_witness :
    ((allWagons (parseFormationString (str "[LK,1:1]")))[0]?.getD defaultWagon).noAccessToNext =
        false ∧
      ((allWagons (parseFormationString (str "[LK,1:1]")))[1]?.getD
        defaultWagon).noAccessToPrevious = false :=
  (claim_C3_amended (str "[LK,1:1]")).2 0 _ _ (by decide) (by decide) (by decide)

/-- C4: the classes of every decoded wagon are a subset of `{1, 2}`, and
a wagon whose status-stripped token matches the family pattern `F[AZ]`
gets exactly the class set `{2}`. -/
theorem claim_C4_classes :
    (∀ (s : Str), ∀ w ∈ allWagons (parseFormationString s),
      ∀ c ∈ w.classes, c = '1' ∨ c = '2') ∧
    (∀ (token sector : Str) (position : Nat) (w : TrainWagon),
      parseVehicleToken token sector position = some w →
      familyTest (stripLeadingStatus token) = true → w.classes = ['2']) := by
  constructor
  · intro s w hw
    exact parse_classesOK s w hw
  · intro tok sec pos w h hf
    exact parseVehicleToken_family h hf

/-- C4 witness: a wagon of `[1:1,2:2]` and the family token `FA`. -/
theorem claim_C4_witness :
    (('1' : Char) = '1' ∨ ('1' : Char) = '2') ∧
    ((parseVehicleToken (str "FA") ([] : Str) 0).getD defaultWagon).classes = ['2'] :=
  ⟨claim_C4_classes.1 (str "[1:1,2:2]")
      ((allWagons (parseFormationString (str "[1:1,2:2]")))[0]?.getD defaultWagon)
      (by decide) '1' (by decide),
   claim_C4_classes.2 (str "FA") [] 0 _ (by decide) (by decide)⟩

/-- C5: a token starting with `-` or containing `(-` or `@-` gets exactly
the status set `{Closed}`; any other token gets `GroupBoarding` iff it
contains `>`, `ReservedForTransit` iff it contains `=`, `Unserviced` iff
it contains `%`, and never `Closed`. -/
theorem claim_C5_status (token : Str) :
    (closedCond token = true → parseWagonStatus token = [WagonStatus.closed]) ∧
    (closedCond token = false →
      (WagonStatus.groupBoarding ∈ parseWagonStatus token ↔ '>' ∈ token) ∧
      (WagonStatus.reservedForTransit ∈ parseWagonStatus token ↔ '=' ∈ token) ∧
      (WagonStatus.unserviced ∈ parseWagonStatus token ↔ '%' ∈ token) ∧
      WagonStatus.closed ∉ parseWagonStatus token) := by
  constructor
  · intro h
    unfold parseWagonStatus
    rw [if_pos h]
  · intro h
    unfold parseWagonStatus
    rw [if_neg (by simp [h])]
    rw [← startsOrContains_iff '>' token, ← startsOrContains_iff '=' token,
      ← startsOrContains_iff '%' token]
    by_cases h1 : (strStarts token ['>'] || token.contains '>') = true <;>
      by_cases h2 : (strStarts token ['='] || token.contains '=') = true <;>
        by_cases h3 : (strStarts token ['%'] || token.contains '%') = true <;>
          simp [h1, h2, h3]

/-- C5 witness: `>=2` is not closed, and carries `GroupBoarding` iff it
contains `>`. -/
theorem claim_C5_witness :
    closedCond (str ">=2") = false ∧
    ((WagonStatus.groupBoarding ∈ parseWagonStatus (str ">=2")) ↔ '>' ∈ str ">=2") :=
  ⟨by decide, ((claim_C5_status (str ">=2")).2 (by decide)).1⟩

/-- C6 counterexample: in the group `1:1,(2:2),12:3` the first
parenthesis span `(2:2)` is strictly interior, yet the first decoded
wagon gets `noAccessToPrevious = true` and the last one gets
`noAccessToNext = true` — the code only tests that the matched span
string itself starts with `(` and ends with `)`, which is always the
case, not that the span sits at the content boundary. -/
theorem claim_C6_counterexample :
    firstParenMatch (str "1:1,(2:2),12:3") = some (str "(2:2)") ∧
    (parseVehicleGroup (str "1:1,(2:2),12:3") [] 0).map
      (fun w => (w.noAccessToPrevious, w.noAccessToNext)) =
      [(true, false), (false, false), (false, true)] := by decide

/-- C6 amended: whenever the group content contains any
parenthesis-enclosed span (wherever it sits), the wagon decoded from the
group's first token — when that token is a vehicle or fictitious-wagon
token with non-blank value — gets `noAccessToPrevious = true` with the
message `No passage to the neighbouring coach possible`, and the wagon
decoded from the group's last token likewise gets
`noAccessToNext = true`; a span at the very start or end instead makes
the parenthesis its own token, so no wagon is flagged through this
mechanism there. -/
theorem claim_C6_amended (content sector : Str) (pos : Nat) (mstr : Str)
    (hpm : firstParenMatch content = some mstr) :
    (∀ t rest, tokenizeFormationString content = t :: rest →
      (t.type = TokenType.VEHICLE ∨ t.type = TokenType.FICTITIOUS_WAGON) →
      blank t.value = false →
      ∃ w tl, parseVehicleGroup content sector pos = w :: tl ∧
        w.noAccessToPrevious = true ∧ w.noAccessMessage = some MSG_NEIGHBOURING) ∧
    (∀ t, (tokenizeFormationString content).getLast? = some t →
      (t.type = TokenType.VEHICLE ∨ t.type = TokenType.FICTITIOUS_WAGON) →
      blank t.value = false →
      ∃ w, (parseVehicleGroup content sector pos).getLast? = some w ∧
        w.noAccessToNext = true ∧ w.noAccessMessage = some MSG_NEIGHBOURING) := by
  have hb := firstParenMatch_bounds hpm
  constructor
  · intro t rest htok htype hblank
    unfold parseVehicleGroup
    rw [hpm, htok]
    exact groupLoop_head _ _ _ hb.1 t rest sector pos htype hblank
  · intro t hlast htype hblank
    unfold parseVehicleGroup
    rw [hpm]
    exact groupLoop_last _ _ _ hb.2 (tokenizeFormationString content) 0 sector pos t
      hlast htype hblank (by simp)

/-- C6 witness: the boundary flags of the group `1:1,(2:2),12:3`. -/
theorem claim_C6_witness :
    (∃ w tl, parseVehicleGroup (str "1:1,(2:2),12:3") [] 0 = w :: tl ∧
      w.noAccessToPrevious = true ∧ w.noAccessMessage = some MSG_NEIGHBOURING) ∧
    (∃ w, (parseVehicleGroup (str "1:1,(2:2),12:3") [] 0).getLast? = some w ∧
      w.noAccessToNext = true ∧ w.noAccessMessage = some MSG_NEIGHBOURING) := by
  have h := claim_C6_amended (str "1:1,(2:2),12:3") [] 0 (str "(2:2)") (by decide)
  exact ⟨h.1 ((tokenizeFormationString (str "1:1,(2:2),12:3")).headD defaultToken)
      ((tokenizeFormationString (str "1:1,(2:2),12:3")).tail)
      (by decide) (by decide) (by decide),
    h.2 ((tokenizeFormationString (str "1:1,(2:2),12:3")).getLastD defaultToken)
      (by decide) (by decide) (by decide)⟩

/-- C7: the travel direction is `left` when the vehicle sector set
contains the first visually written sector, else `right` when it contains
the last visually written one, else `unknown`; a blank formation string,
an empty visual sector list, or an empty vehicle sector field all give
`unknown`; visual order `[A, C, B]` with vehicle sectors `B` gives
`right`. -/
theorem claim_C7_direction :
    (∀ fs vsec : Str, blank fs = true →
      determineTravelDirection fs vsec = TravelDirection.unknown) ∧
    (∀ fs vsec : Str, visualSectorsOf fs = [] →
      determineTravelDirection fs vsec = TravelDirection.unknown) ∧
    (∀ fs vsec : Str, vehicleSectorsOf vsec = [] →
      determineTravelDirection fs vsec = TravelDirection.unknown) ∧
    (∀ fs vsec : Str, visualSectorsOf fs ≠ [] →
      (visualSectorsOf fs).headD [] ∈ vehicleSectorsOf vsec →
      determineTravelDirection fs vsec = TravelDirection.left) ∧
    (∀ fs vsec : Str, visualSectorsOf fs ≠ [] →
      (visualSectorsOf fs).headD [] ∉ vehicleSectorsOf vsec →
      (visualSectorsOf fs).getLastD [] ∈ vehicleSectorsOf vsec →
      determineTravelDirection fs vsec = TravelDirection.right) ∧
    (∀ fs vsec : Str,
      (visualSectorsOf fs).headD [] ∉ vehicleSectorsOf vsec →
      (visualSectorsOf fs).getLastD [] ∉ vehicleSectorsOf vsec →
      determineTravelDirection fs vsec = TravelDirection.unknown) ∧
    determineTravelDirection (str "@A[1:1]@C[1:2]@B[1:3]") (str "B") =
      TravelDirection.right := by
  refine ⟨?_, ?_, ?_, ?_, ?_, ?_, by decide⟩
  · intro fs vsec h
    unfold determineTravelDirection
    rw [if_pos (Or.inl (by simp [h]))]
  · intro fs vsec h
    unfold determineTravelDirection
    split
    · rfl
    · dsimp only
      rw [if_pos h]
  · intro fs vsec h
    unfold determineTravelDirection
    split
    · rfl
    · dsimp only
      by_cases hvis : visualSectorsOf fs = []
      · rw [if_pos hvis]
      · rw [if_neg hvis, if_pos h]
  · intro fs vsec h1 hmem
    have hfs : blank fs = false := by
      cases hbv : blank fs
      · rfl
      · exact absurd (visualSectorsOf_blank hbv) h1
    have hv : vsec ≠ [] := by
      intro hc
      subst hc
      rw [vehicleSectorsOf_nil] at hmem
      cases hmem
    have hveh : vehicleSectorsOf vsec ≠ [] := by
      intro hc
      rw [hc] at hmem
      cases hmem
    unfold determineTravelDirection
    rw [if_neg (by simp [hfs, hv]), if_neg h1, if_neg hveh,
      if_pos (List.elem_iff.mpr hmem)]
  · intro fs vsec h1 hno hmem
    have hfs : blank fs = false := by
      cases hbv : blank fs
      · rfl
      · exact absurd (visualSectorsOf_blank hbv) h1
    have hv : vsec ≠ [] := by
      intro hc
      subst hc
      rw [vehicleSectorsOf_nil] at hmem
      cases hmem
    have hveh : vehicleSectorsOf vsec ≠ [] := by
      intro hc
      rw [hc] at hmem
      cases hmem
    unfold determineTravelDirection
    rw [if_neg (by simp [hfs, hv]), if_neg h1, if_neg hveh,
      if_neg (fun hc => hno (List.elem_iff.mp hc)),
      if_pos (List.elem_iff.mpr hmem)]
  · intro fs vsec h1 h2
    unfold determineTravelDirection
    split
    · rfl
    · dsimp only
      split
      · rfl
      · split
        · rfl
        · rw [if_neg (fun hc => h1 (List.elem_iff.mp hc)),
            if_neg (fun hc => h2 (List.elem_iff.mp hc))]

/-- C7 witness: the edge clauses at the `[A, C, B]` example. -/
theorem claim_C7_witness :
    determineTravelDirection (str "@A[1:1]@C[1:2]@B[1:3]") (str "B") =
      TravelDirection.right :=
  (claim_C7_direction.2.2.2.2.1) (str "@A[1:1]@C[1:2]@B[1:3]") (str "B")
    (by decide) (by decide) (by decide)

/-- C8: a blank (empty or whitespace-only) formation string decodes to
the empty section list, and the decoder is a total function — every
input produces a result, no exception escapes. -/
theorem claim_C8_blank_and_total :
    (∀ s : Str, blank s = true → parseFormationString s = []) ∧
    (∀ s : Str, ∃ sections, parseFormationString s = sections) := by
  constructor
  · intro s h
    exact parse_blank h
  · intro s
    exact ⟨_, rfl⟩

/-- C8 witness: the whitespace-only string decodes to no sections. -/
theorem claim_C8_witness :
    blank (str "  ") = true ∧ parseFormationString (str "  ") = [] :=
  ⟨by decide, claim_C8_blank_and_total.1 (str "  ") (by decide)⟩

/-- C9 counterexample: `Q` contains no `@` and no sector content, is not
blank, and decodes to zero sections — not to exactly one. -/
theorem claim_C9_counterexample :
    (str "Q").contains '@' = false ∧ blank (str "Q") = false ∧
      parseFormationString (str "Q") = [] := by decide

/-- C9 amended: a formation string without `@` decodes to at most one
section; any returned section carries the default (empty) sector and a
non-empty wagon list (so the count is exactly one as soon as any wagon
decodes). -/
theorem claim_C9_amended (s : Str) (h : s.contains '@' = false) :
    (parseFormationString s).length ≤ 1 ∧
    ∀ sec ∈ parseFormationString s, sec.sector = [] ∧ sec.wagons ≠ [] := by
  unfold parseFormationString
  split
  · exact ⟨by simp, by intro sec hsec; cases hsec⟩
  · dsimp only
    rw [if_neg (show ¬ (List.contains s '@' = true) by simpa using h)]
    have hQ : mapQ (processSegment
        (match extractBracketContent s '[' ']' with
         | some c => if c = [] then s else c
         | none => s) [] 0 []).2 :=
      processSegment_Q (Or.inl rfl)
    rcases sectionsFromMap_Q hQ with hnil | ⟨ws, hne, hone⟩
    · rw [hnil, finalize_nil]
      exact ⟨by simp, by intro sec hsec; cases hsec⟩
    · rw [hone, finalize_single ws hne]
      refine ⟨by simp, ?_⟩
      intro sec hsec
      simp only [List.mem_singleton] at hsec
      subst hsec
      refine ⟨rfl, ?_⟩
      intro hc
      have := congrArg List.length hc
      rw [finalizePass_length, List.length_map] at this
      exact hne (List.length_eq_zero.mp this)

/-- C9 witness: `1:1` has no `@` and decodes to one default-sector
section. -/
theorem claim_C9_witness :
    (parseFormationString (str "1:1")).length ≤ 1 ∧
    ∀ sec ∈ parseFormationString (str "1:1"), sec.sector = [] ∧ sec.wagons ≠ [] :=
  claim_C9_amended (str "1:1") (by decide)

/-- C10 counterexample: inside a bracket group the token `FA` does decode
to a wagon — the fictitious `F` token is fed to the vehicle-token parser
and yields one generic wagon — refuting that it decodes to no wagon. -/
theorem claim_C10_counterexample :
    (parseVehicleGroup (str "FA") [] 0).length = 1 := by decide

/-- C10 amended: an `F` met with an empty accumulation buffer is emitted
immediately as a FictitiousWagon token even when more text follows, so
`FA` splits into a FictitiousWagon token plus an Unknown remainder token
and is never classified as a Vehicle token; inside a bracket group it
decodes to a single generic wagon of type `wagon` (the fictitious token
is passed to the vehicle-token parser), not to a family coach and not to
nothing. -/
theorem claim_C10_amended :
    (∀ (rest : List Char) (pos : Nat),
      tokenizeAux ('F' :: rest) [] pos =
        { type := TokenType.FICTITIOUS_WAGON, value := ['F'], position := pos } ::
          tokenizeAux rest [] (pos + 1)) ∧
    (tokenizeFormationString (str "FA")).map (fun t => t.type) =
      [TokenType.FICTITIOUS_WAGON, TokenType.UNKNOWN] ∧
    (parseVehicleGroup (str "FA") [] 0).map (fun w => w.type) = [str "wagon"] := by
  refine ⟨?_, by decide, by decide⟩
  intro rest pos
  simp [tokenizeAux]

end Formation
